import Mathlib

/-!
Verification of the Task Lifecycle & Deduplication Engine of the
hack-princeton repository (`services/analysis_service.py`, `routers/tasks.py`).

The Python code stores tasks as JSON dictionaries; we embed a task record as a
structure whose nullable fields are explicit `Option`s.  ISO timestamp strings
are embedded as parsed values: `TStamp.ok t` is a string that
`datetime.fromisoformat` parses to the instant `t` (seconds since an arbitrary
epoch, timezone already normalised), and `TStamp.bad` is a present but
unparseable string (the `except` path of the pruner).  An absent or empty
string field is `Option.none` (both are falsy in the Python `or`/`if` tests
that guard every use of these fields).
-/

namespace AnalysisService

/-- Parsed ISO-8601 timestamp: `ok t` parses to instant `t` (in seconds),
`bad` is a present but unparseable timestamp string. -/
inductive TStamp
  | bad
  | ok (t : Int)
deriving DecidableEq, Repr

/-- One task record of `tasks.json`.  Field names follow the Python dict keys.
String fields that the code reads with `task.get(key, "")` (description,
pilot_message, priority, category, ...) are plain `String`s with `""` for a
missing key; genuinely nullable fields (`audio_file`, the timestamps) are
`Option`s. -/
structure TaskRec where
  aircraft_icao24 : String
  aircraft_callsign : String
  category : String
  priority : String
  summary : String
  description : String
  pilot_message : String
  fingerprint : String
  id : Nat
  created_at : Option TStamp
  last_seen : Option TStamp
  resolved : Bool
  audio_file : Option String
deriving DecidableEq, Repr

/-- Python truthiness of an optional string field: `None` and `""` are falsy. -/
def truthyOpt (o : Option String) : Bool :=
  o.getD "" != ""

/-- The fingerprint of a finding, from `analyze_with_dedalus`
(analysis_service.py line 421):
`fingerprint = f"{icao24}_{task.get('category', 'Other')}_{task.get('priority', 'LOW')}"`. -/
def fingerprint (icao24 category priority : String) : String :=
  icao24 ++ "_" ++ category ++ "_" ++ priority

/-- The numeric id derived from a fingerprint (analysis_service.py line 423):
`task["id"] = abs(hash(fingerprint)) % 1000000`.  `hash` is Python's
process-stable string hash, embedded as an arbitrary function parameter. -/
def taskIdOf (hash : String → Int) (fp : String) : Nat :=
  (hash fp).natAbs % 1000000

/-- The identity-assignment step applied to every candidate produced by the
AI oracle (analysis_service.py lines 419-428): compute the fingerprint from
the (already UNKNOWN-fixed) identity fields, derive the id, stamp
`created_at` with the current time, and initialise `resolved = False`,
`audio_file = None`. -/
def assignIdentity (hash : String → Int) (now : Int) (c : TaskRec) : TaskRec :=
  let fp := fingerprint c.aircraft_icao24 c.category c.priority
  { c with
    fingerprint := fp
    id := taskIdOf hash fp
    created_at := some (TStamp.ok now)
    resolved := false
    audio_file := none }

/-- Does record `t` occupy dict entry `fp` of `existing_fingerprints`
(analysis_service.py lines 508-513)?  The dict holds every unresolved record
with a truthy fingerprint, keyed by that fingerprint. -/
def matchesFpB (t : TaskRec) (fp : String) : Bool :=
  !t.resolved && t.fingerprint != "" && t.fingerprint == fp

/-- Index stored under key `fp` in `existing_fingerprints`
(analysis_service.py lines 508-513).  The Python dict comprehension
overwrites on duplicate keys, so the entry is the index of the LAST
unresolved record carrying the (truthy) fingerprint `fp`. -/
def lastUnresolvedIdx : List TaskRec → String → Option Nat
  | [], _ => none
  | t :: ts, fp =>
    match lastUnresolvedIdx ts fp with
    | some j => some (j + 1)
    | none => if matchesFpB t fp then some 0 else none

/-- In-place update of a matched existing record by candidate `c`
(analysis_service.py lines 520-530): refresh `last_seen` to now, replace the
description only when the candidate's is strictly longer, and adopt the
candidate's audio file only when the record has none and the candidate has
one. -/
def updateMatched (r c : TaskRec) (now : Int) : TaskRec :=
  let r1 := { r with last_seen := some (TStamp.ok now) }
  let r2 :=
    if c.description.length > r1.description.length then
      { r1 with description := c.description }
    else r1
  if !(truthyOpt r2.audio_file) && truthyOpt c.audio_file then
    { r2 with audio_file := c.audio_file }
  else r2

/-- A candidate appended as a new task (analysis_service.py lines 532-534):
`task["last_seen"] = task["created_at"]`. -/
def setNewTask (c : TaskRec) : TaskRec :=
  { c with last_seen := c.created_at }

/-- The merge loop of `run_analysis` (analysis_service.py lines 515-534),
state = (`existing_tasks` being updated in place, `new_tasks`).  The
fingerprint dict is computed once from the original `existing_tasks` list
(`orig`); in-place updates never change a record's `resolved` flag or
fingerprint, so the dict stays valid as indices into the evolving list. -/
def mergeStep (orig : List TaskRec) (now : Int) (st : List TaskRec × List TaskRec)
    (c : TaskRec) : List TaskRec × List TaskRec :=
  if c.fingerprint ≠ "" then
    match lastUnresolvedIdx orig c.fingerprint with
    | some i => (st.1.set i (updateMatched (st.1.getD i c) c now), st.2)
    | none => (st.1, st.2 ++ [setNewTask c])
  else (st.1, st.2 ++ [setNewTask c])

def mergeLoop (orig : List TaskRec) (now : Int) :
    List TaskRec → List TaskRec × List TaskRec → List TaskRec × List TaskRec
  | [], st => st
  | c :: cs, st => mergeLoop orig now cs (mergeStep orig now st c)

/-- The fingerprint-based merge of one candidate batch into the current task
store (`run_analysis`, analysis_service.py lines 504-537):
`all_tasks = existing_tasks + new_tasks` after the loop. -/
def mergeTasks (existing cands : List TaskRec) (now : Int) : List TaskRec :=
  let st := mergeLoop existing now cands (existing, [])
  st.1 ++ st.2

/-- The `new_tasks` list returned by `run_analysis` (line 546). -/
def mergeNewTasks (existing cands : List TaskRec) (now : Int) : List TaskRec :=
  (mergeLoop existing now cands (existing, [])).2

/-- Timestamp used for an unresolved record by the pruner
(analysis_service.py line 576):
`last_seen_str = task.get("last_seen") or task.get("created_at")`. -/
def effectiveSeen (t : TaskRec) : Option TStamp :=
  match t.last_seen with
  | some v => some v
  | none => t.created_at

/-- Keep-decision of `prune_outdated_tasks` for a single record
(analysis_service.py lines 570-608).  `expiryCutoff` and `resolvedCutoff`
are `now - timedelta(...)` from lines 564-565.  A missing timestamp skips the
check (record kept); an unparseable timestamp (`TStamp.bad`) raises in
Python, is caught by the `except`, and the record is kept. -/
def keepTask (expiryCutoff resolvedCutoff : Int) (t : TaskRec) : Bool :=
  if !t.resolved then
    match effectiveSeen t with
    | none => true
    | some TStamp.bad => true
    | some (TStamp.ok s) => !(s < expiryCutoff)
  else
    match t.created_at with
    | none => true
    | some TStamp.bad => true
    | some (TStamp.ok s) => !(s < resolvedCutoff)

/-- `prune_outdated_tasks` (analysis_service.py lines 549-613).
`expiryMinutes` is `TASK_EXPIRY_MINUTES`, `retentionHours` is
`RESOLVED_TASK_RETENTION_HOURS`; time is in seconds. -/
def prune_outdated_tasks (tasks : List TaskRec) (now : Int)
    (expiryMinutes retentionHours : Int) : List TaskRec :=
  tasks.filter (keepTask (now - 60 * expiryMinutes) (now - 3600 * retentionHours))

/-- Python's `str.upper()` on the ASCII priority strings used here. -/
def pyUpper (s : String) : String :=
  ⟨s.data.map Char.toUpper⟩

/-- Count of unresolved HIGH priority tasks already carrying audio
(analysis_service.py lines 436-441): `not resolved and
priority.upper() == 'HIGH' and audio_file is not None`. -/
def countHighAudio (tasks : List TaskRec) : Nat :=
  (tasks.filter (fun t =>
    !t.resolved && pyUpper t.priority == "HIGH" && t.audio_file.isSome)).length

/-- `audio_slots_available = max(0, 3 - existing_high_with_audio)`
(analysis_service.py line 444). -/
def audioSlots (existing : List TaskRec) : Nat :=
  (max 0 (3 - (countHighAudio existing : Int))).toNat

/-- The audio allocation loop (analysis_service.py lines 430-461).  The code
filters the candidate batch down to HIGH priority tasks and walks them in
order; a non-HIGH candidate is never touched.  When the slot budget is
exhausted the loop `break`s, leaving every later candidate untouched.  A
candidate with a falsy `pilot_message` is skipped without consuming a slot;
`gen id msg` models `generate_audio_for_task`, returning `none` on failure,
in which case the slot is not consumed either. -/
def allocateAudio (gen : Nat → String → Option String) :
    Nat → List TaskRec → List TaskRec
  | _, [] => []
  | slots, t :: ts =>
    if pyUpper t.priority == "HIGH" then
      if slots = 0 then t :: ts
      else if t.pilot_message != "" then
        match gen t.id t.pilot_message with
        | some fn => { t with audio_file := some fn } :: allocateAudio gen (slots - 1) ts
        | none => t :: allocateAudio gen slots ts
      else t :: allocateAudio gen slots ts
    else t :: allocateAudio gen slots ts

/-- The whole audio-slot allocation step of one cycle
(analysis_service.py lines 430-461): compute the slot budget from the
existing store, then run the allocation loop over the candidate batch. -/
def allocationStep (gen : Nat → String → Option String)
    (existing cands : List TaskRec) : List TaskRec :=
  allocateAudio gen (audioSlots existing) cands

/-- `save_tasks` (analysis_service.py lines 616-628).  The actual file write
may fail (`writeOk = false`); the Python wraps it in
`try ... except Exception as e: print(...)`, so no error ever reaches the
caller: the returned error component is `none` in both branches.  `disk` is
the previous contents of `tasks.json`; on a failed write (modelled as failing
before any byte is written) it is left as it was. -/
def save_tasks (writeOk : Bool) (disk tasks : List TaskRec) :
    List TaskRec × Option String :=
  if writeOk then (tasks, none) else (disk, none)

/-- The tail of one `run_analysis` cycle (analysis_service.py lines 504-546):
load the store, merge the candidate batch, prune, save, and return the new
tasks.  Result: (contents of `tasks.json` afterwards, the value
`run_analysis` returns, the error surfaced to the cycle by the save). -/
def runMergePersist (writeOk : Bool) (disk cands : List TaskRec) (now : Int)
    (expiryMinutes retentionHours : Int) :
    List TaskRec × List TaskRec × Option String :=
  let existing := disk
  let allTasks := mergeTasks existing cands now
  let pruned := prune_outdated_tasks allTasks now expiryMinutes retentionHours
  let saved := save_tasks writeOk disk pruned
  (saved.1, mergeNewTasks existing cands now, saved.2)

/-- The loop of `resolve_task` (routers/tasks.py lines 65-79): flip
`resolved` on the FIRST record whose id equals the requested one, then stop.
Returns the updated list and the `task_found` flag (`false` becomes the 404
response). -/
def resolveLoop : List TaskRec → Nat → List TaskRec × Bool
  | [], _ => ([], false)
  | t :: ts, tid =>
    if t.id = tid then ({ t with resolved := true } :: ts, true)
    else
      let r := resolveLoop ts tid
      (t :: r.1, r.2)

def resolve_task (tasks : List TaskRec) (tid : Nat) : List TaskRec × Bool :=
  resolveLoop tasks tid

/-- The semantic identity content of a record that the fingerprint dict and
the merge invariants depend on: its `resolved` flag and its fingerprint. -/
def proj (t : TaskRec) : Bool × String :=
  (t.resolved, t.fingerprint)

/-- Fingerprints of the unresolved records of a store that participate in
deduplication (those with a truthy fingerprint). -/
def unresolvedFps (tasks : List TaskRec) : List String :=
  (tasks.filter (fun t => !t.resolved && t.fingerprint != "")).map (·.fingerprint)

/-- A candidate that the merge loop appends as a new task rather than
merging: falsy fingerprint, or no unresolved match in the original store. -/
def notMatchedB (orig : List TaskRec) (c : TaskRec) : Bool :=
  (c.fingerprint == "") || !(lastUnresolvedIdx orig c.fingerprint).isSome

/-- Does the pruner fail to parse the timestamp it needs for this record? -/
def hasBadStamp (t : TaskRec) : Bool :=
  if !t.resolved then effectiveSeen t == some TStamp.bad
  else t.created_at == some TStamp.bad

/-- A string free of the underscore separator used by `fingerprint`. -/
def noUnderscore (s : String) : Bool :=
  s.data.all (fun ch => ch ≠ '_')

/-! ### Concrete records used by witnesses and counterexamples -/

def sampleBase : TaskRec :=
  { aircraft_icao24 := "A1B2C3", aircraft_callsign := "AAL123",
    category := "Low Altitude", priority := "HIGH", summary := "low alt",
    description := "aircraft low", pilot_message := "November 123, low altitude alert",
    fingerprint := "A1B2C3_Low Altitude_HIGH", id := 17,
    created_at := some (TStamp.ok 0), last_seen := some (TStamp.ok 0),
    resolved := false, audio_file := none }

/-- Candidate recurrence of `sampleBase` with a strictly longer description,
produced five minutes later. -/
def candLonger : TaskRec :=
  { sampleBase with
      description := "aircraft dangerously low, advise climb",
      created_at := some (TStamp.ok 300),
      last_seen := none }

/-- Fresh candidate as the analysis step emits it (no `last_seen` yet). -/
def candDup : TaskRec :=
  { sampleBase with last_seen := none }

/-- A resolved store record carrying the same fingerprint as `sampleBase`. -/
def resolvedRec : TaskRec :=
  { sampleBase with resolved := true }

/-- Fresh candidate arriving two minutes after `resolvedRec` was created. -/
def candFresh : TaskRec :=
  { sampleBase with created_at := some (TStamp.ok 120), last_seen := none }

/-- A narration backend that always succeeds, naming files like
`generate_audio_for_task` does (`task_{id}.mp3`). -/
def genOk : Nat → String → Option String :=
  fun i _ => some ("task_" ++ toString i ++ ".mp3")

/-- Candidate pair sharing one fingerprint, first description longer. -/
def candA : TaskRec :=
  { sampleBase with description := "ab", last_seen := none }

def candB : TaskRec :=
  { sampleBase with description := "a", last_seen := none }

/-- Unresolved task last seen 11 minutes (660 s) before `now = 0`. -/
def staleTask : TaskRec :=
  { sampleBase with last_seen := some (TStamp.ok (-660)) }

/-- Unresolved task last seen 9 minutes (540 s) before `now = 0`. -/
def freshTask : TaskRec :=
  { sampleBase with last_seen := some (TStamp.ok (-540)) }

/-- Unresolved task whose `last_seen` string does not parse. -/
def badStampTask : TaskRec :=
  { sampleBase with last_seen := some TStamp.bad }

/-- A second, unrelated store record. -/
def otherTask : TaskRec :=
  { sampleBase with
      id := 18,
      fingerprint := "D4E5F6_Weather Hazard_LOW",
      aircraft_icao24 := "D4E5F6",
      category := "Weather Hazard",
      priority := "LOW" }

/-! ### Helper lemmas -/

theorem updateMatched_last_seen (r c : TaskRec) (now : Int) :
    (updateMatched r c now).last_seen = some (TStamp.ok now) := by
  unfold updateMatched
  dsimp only
  split <;> split <;> rfl

theorem updateMatched_description (r c : TaskRec) (now : Int) :
    (updateMatched r c now).description =
      (if c.description.length > r.description.length then c.description
       else r.description) := by
  unfold updateMatched
  dsimp only
  split <;> split <;> rfl

theorem updateMatched_audio_file (r c : TaskRec) (now : Int) :
    (updateMatched r c now).audio_file =
      (if !(truthyOpt r.audio_file) && truthyOpt c.audio_file then c.audio_file
       else r.audio_file) := by
  unfold updateMatched
  dsimp only
  split <;> split <;> rfl

theorem updateMatched_created_at (r c : TaskRec) (now : Int) :
    (updateMatched r c now).created_at = r.created_at := by
  unfold updateMatched
  dsimp only
  split <;> split <;> rfl

theorem updateMatched_resolved (r c : TaskRec) (now : Int) :
    (updateMatched r c now).resolved = r.resolved := by
  unfold updateMatched
  dsimp only
  split <;> split <;> rfl

theorem updateMatched_fingerprint (r c : TaskRec) (now : Int) :
    (updateMatched r c now).fingerprint = r.fingerprint := by
  unfold updateMatched
  dsimp only
  split <;> split <;> rfl

theorem updateMatched_aircraft_icao24 (r c : TaskRec) (now : Int) :
    (updateMatched r c now).aircraft_icao24 = r.aircraft_icao24 := by
  unfold updateMatched
  dsimp only
  split <;> split <;> rfl

theorem updateMatched_category (r c : TaskRec) (now : Int) :
    (updateMatched r c now).category = r.category := by
  unfold updateMatched
  dsimp only
  split <;> split <;> rfl

theorem updateMatched_priority (r c : TaskRec) (now : Int) :
    (updateMatched r c now).priority = r.priority := by
  unfold updateMatched
  dsimp only
  split <;> split <;> rfl

theorem updateMatched_id (r c : TaskRec) (now : Int) :
    (updateMatched r c now).id = r.id := by
  unfold updateMatched
  dsimp only
  split <;> split <;> rfl

theorem updateMatched_proj (r c : TaskRec) (now : Int) :
    proj (updateMatched r c now) = proj r := by
  unfold proj
  rw [updateMatched_resolved, updateMatched_fingerprint]

theorem lastUnresolvedIdx_some_spec (l : List TaskRec) (fp : String) (i : Nat)
    (h : lastUnresolvedIdx l fp = some i) :
    i < l.length ∧ ∃ x, l[i]? = some x ∧ matchesFpB x fp = true := by
  induction l generalizing i with
  | nil => simp [lastUnresolvedIdx] at h
  | cons t ts ih =>
    rw [lastUnresolvedIdx] at h
    cases hts : lastUnresolvedIdx ts fp with
    | some j =>
      rw [hts] at h
      obtain ⟨hj, x, hx, hm⟩ := ih j hts
      cases h
      exact ⟨by simpa using Nat.succ_lt_succ hj, x, by simpa using hx, hm⟩
    | none =>
      rw [hts] at h
      by_cases hmt : matchesFpB t fp
      · simp only [hmt, if_pos] at h
        cases h
        exact ⟨by simp, t, by simp, hmt⟩
      · simp [hmt] at h

theorem lastUnresolvedIdx_none_iff (l : List TaskRec) (fp : String) :
    lastUnresolvedIdx l fp = none ↔ ∀ x ∈ l, matchesFpB x fp = false := by
  induction l with
  | nil => simp [lastUnresolvedIdx]
  | cons t ts ih =>
    rw [lastUnresolvedIdx]
    cases hts : lastUnresolvedIdx ts fp with
    | some j =>
      constructor
      · intro h; cases h
      · intro h
        have : ∀ x ∈ ts, matchesFpB x fp = false := fun x hx => h x (by simp [hx])
        rw [ih.mpr this] at hts
        cases hts
    | none =>
      by_cases hmt : matchesFpB t fp
      · simp only [hmt, if_pos]
        constructor
        · intro h; cases h
        · intro h
          have := h t (by simp)
          rw [hmt] at this
          cases this
      · rw [if_neg hmt]
        constructor
        · intro _ x hx
          rcases List.mem_cons.mp hx with h1 | h2
          · subst h1; exact Bool.eq_false_iff.mpr hmt
          · exact (ih.mp hts) x h2
        · intro _; rfl

theorem lastUnresolvedIdx_append (A B : List TaskRec) (fp : String) :
    lastUnresolvedIdx (A ++ B) fp =
      (match lastUnresolvedIdx B fp with
       | some j => some (A.length + j)
       | none => lastUnresolvedIdx A fp) := by
  induction A with
  | nil =>
    simp only [List.nil_append, List.length_nil]
    cases h : lastUnresolvedIdx B fp <;> simp [h, lastUnresolvedIdx]
  | cons t ts ih =>
    rw [List.cons_append, lastUnresolvedIdx, ih]
    cases hB : lastUnresolvedIdx B fp with
    | some j =>
      simp only [List.length_cons]
      congr 1
      omega
    | none =>
      rw [lastUnresolvedIdx]

theorem matchesFpB_congr (t u : TaskRec) (h : proj t = proj u) (fp : String) :
    matchesFpB t fp = matchesFpB u fp := by
  unfold proj at h
  rw [Prod.mk.injEq] at h
  unfold matchesFpB
  rw [h.1, h.2]

theorem lastUnresolvedIdx_congr (l1 l2 : List TaskRec)
    (h : l1.map proj = l2.map proj) (fp : String) :
    lastUnresolvedIdx l1 fp = lastUnresolvedIdx l2 fp := by
  induction l1 generalizing l2 with
  | nil =>
    cases l2 with
    | nil => rfl
    | cons u us => simp at h
  | cons t ts ih =>
    cases l2 with
    | nil => simp at h
    | cons u us =>
      simp only [List.map_cons, List.cons.injEq] at h
      rw [lastUnresolvedIdx, lastUnresolvedIdx, ih us h.2, matchesFpB_congr t u h.1]

theorem set_getElem?_self {α : Type} (l : List α) (i : Nat) (a : α)
    (h : l[i]? = some a) : l.set i a = l := by
  induction l generalizing i with
  | nil => simp at h
  | cons x xs ih =>
    cases i with
    | zero =>
      simp only [List.getElem?_cons_zero, Option.some.injEq] at h
      subst h
      rfl
    | succ n =>
      simp only [List.getElem?_cons_succ] at h
      rw [List.set_cons_succ, ih n h]

theorem mergeLoop_append (orig : List TaskRec) (now : Int) (cs1 cs2 : List TaskRec)
    (st : List TaskRec × List TaskRec) :
    mergeLoop orig now (cs1 ++ cs2) st =
      mergeLoop orig now cs2 (mergeLoop orig now cs1 st) := by
  induction cs1 generalizing st with
  | nil => rfl
  | cons c cs ih => rw [List.cons_append, mergeLoop, mergeLoop, ih]

theorem mergeLoop_fixpoint (orig : List TaskRec) (now : Int) (cs : List TaskRec)
    (st : List TaskRec × List TaskRec)
    (h : ∀ c ∈ cs, mergeStep orig now st c = st) :
    mergeLoop orig now cs st = st := by
  induction cs with
  | nil => rfl
  | cons c cs ih =>
    rw [mergeLoop, h c (by simp)]
    exact ih fun c' hc' => h c' (by simp [hc'])

theorem mergeLoop_news (orig : List TaskRec) (now : Int) (cs : List TaskRec)
    (st : List TaskRec × List TaskRec) :
    (mergeLoop orig now cs st).2 =
      st.2 ++ (cs.filter (notMatchedB orig)).map setNewTask := by
  induction cs generalizing st with
  | nil => simp [mergeLoop]
  | cons c cs ih =>
    rw [mergeLoop, ih, List.filter_cons]
    unfold mergeStep notMatchedB
    by_cases hfp : c.fingerprint = ""
    · rw [if_neg (by simp [hfp]), if_pos (by simp [hfp])]
      simp
    · rw [if_pos hfp]
      cases hL : lastUnresolvedIdx orig c.fingerprint with
      | some i =>
        rw [if_neg (by simp [hfp, hL])]
      | none =>
        rw [if_pos (by simp [hfp, hL])]
        simp

theorem mergeLoop_proj (orig : List TaskRec) (now : Int) (cs : List TaskRec)
    (st : List TaskRec × List TaskRec) :
    ((mergeLoop orig now cs st).1).map proj = (st.1).map proj := by
  induction cs generalizing st with
  | nil => rfl
  | cons c cs ih =>
    rw [mergeLoop, ih]
    unfold mergeStep
    split
    · cases hL : lastUnresolvedIdx orig c.fingerprint with
      | some i =>
        by_cases hi : i < st.1.length
        · have hget : st.1[i]? = some st.1[i] :=
            List.getElem?_eq_some_iff.mpr ⟨hi, rfl⟩
          have hgd : st.1.getD i c = st.1[i] := by
            rw [List.getD_eq_getElem?_getD, hget]
            rfl
          simp only [List.map_set, hgd, updateMatched_proj]
          apply set_getElem?_self
          rw [List.getElem?_map, hget]
          rfl
        · rw [List.map_set,
            List.set_eq_of_length_le (by simpa using Nat.le_of_not_lt hi)]
      | none => rfl
    · rfl

theorem allocateAudio_zero (gen : Nat → String → Option String) (l : List TaskRec) :
    allocateAudio gen 0 l = l := by
  induction l with
  | nil => rfl
  | cons t ts ih =>
    rw [allocateAudio]
    by_cases h : pyUpper t.priority == "HIGH"
    · rw [if_pos h, if_pos rfl]
    · rw [if_neg h, ih]

theorem TaskRec.extAll (a b : TaskRec)
    (h1 : a.aircraft_icao24 = b.aircraft_icao24)
    (h2 : a.aircraft_callsign = b.aircraft_callsign)
    (h3 : a.category = b.category) (h4 : a.priority = b.priority)
    (h5 : a.summary = b.summary) (h6 : a.description = b.description)
    (h7 : a.pilot_message = b.pilot_message) (h8 : a.fingerprint = b.fingerprint)
    (h9 : a.id = b.id) (h10 : a.created_at = b.created_at)
    (h11 : a.last_seen = b.last_seen) (h12 : a.resolved = b.resolved)
    (h13 : a.audio_file = b.audio_file) : a = b := by
  cases a
  cases b
  simp_all

theorem updateMatched_aircraft_callsign (r c : TaskRec) (now : Int) :
    (updateMatched r c now).aircraft_callsign = r.aircraft_callsign := by
  unfold updateMatched
  dsimp only
  split <;> split <;> rfl

theorem updateMatched_summary (r c : TaskRec) (now : Int) :
    (updateMatched r c now).summary = r.summary := by
  unfold updateMatched
  dsimp only
  split <;> split <;> rfl

theorem updateMatched_pilot_message (r c : TaskRec) (now : Int) :
    (updateMatched r c now).pilot_message = r.pilot_message := by
  unfold updateMatched
  dsimp only
  split <;> split <;> rfl

theorem updateMatched_idem (r c : TaskRec) (now : Int) :
    updateMatched (updateMatched r c now) c now = updateMatched r c now := by
  apply TaskRec.extAll
  · rw [updateMatched_aircraft_icao24]
  · rw [updateMatched_aircraft_callsign]
  · rw [updateMatched_category]
  · rw [updateMatched_priority]
  · rw [updateMatched_summary]
  · rw [updateMatched_description, updateMatched_description]
    by_cases hd : c.description.length > r.description.length <;> simp [hd]
  · rw [updateMatched_pilot_message]
  · rw [updateMatched_fingerprint]
  · rw [updateMatched_id]
  · rw [updateMatched_created_at]
  · rw [updateMatched_last_seen, updateMatched_last_seen]
  · rw [updateMatched_resolved]
  · rw [updateMatched_audio_file, updateMatched_audio_file]
    by_cases hA : truthyOpt r.audio_file <;> by_cases hB : truthyOpt c.audio_file <;>
      simp [hA, hB]

theorem keepTask_of_badStamp (x y : Int) (t : TaskRec)
    (h : hasBadStamp t = true) : keepTask x y t = true := by
  unfold hasBadStamp at h
  unfold keepTask
  cases hr : t.resolved <;> rw [hr] at h <;> simp at h ⊢ <;> simp [h]

theorem append_sep_inj (sep : Char) (l1 : List Char) :
    ∀ (l2 r1 r2 : List Char), sep ∉ l1 → sep ∉ l2 →
      l1 ++ sep :: r1 = l2 ++ sep :: r2 → l1 = l2 ∧ r1 = r2 := by
  induction l1 with
  | nil =>
    intro l2 r1 r2 _ h2 h
    cases l2 with
    | nil => simpa using h
    | cons b bs =>
      simp only [List.nil_append, List.cons_append, List.cons.injEq] at h
      exact absurd (h.1 ▸ List.mem_cons_self b bs) h2
  | cons a as ih =>
    intro l2 r1 r2 h1 h2 h
    cases l2 with
    | nil =>
      simp only [List.cons_append, List.nil_append, List.cons.injEq] at h
      exact absurd (h.1 ▸ List.mem_cons_self a as) h1
    | cons b bs =>
      simp only [List.cons_append, List.cons.injEq] at h
      obtain ⟨hab, htl⟩ := h
      have := ih bs r1 r2 (fun hm => h1 (List.mem_cons_of_mem a hm))
        (fun hm => h2 (List.mem_cons_of_mem b hm)) htl
      exact ⟨by rw [hab, this.1], this.2⟩

theorem fingerprint_data (a c p : String) :
    (fingerprint a c p).data = a.data ++ '_' :: (c.data ++ '_' :: p.data) := by
  unfold fingerprint
  rw [String.data_append, String.data_append, String.data_append,
    String.data_append]
  simp

theorem noUnderscore_not_mem (s : String) (h : noUnderscore s = true) :
    '_' ∉ s.data := by
  unfold noUnderscore at h
  rw [List.all_eq_true] at h
  intro hm
  have := h '_' hm
  simp at this

theorem resolveLoop_not_found (tasks : List TaskRec) (tid : Nat)
    (h : (resolveLoop tasks tid).2 = false) : (resolveLoop tasks tid).1 = tasks := by
  induction tasks with
  | nil => rfl
  | cons t ts ih =>
    rw [resolveLoop] at h ⊢
    by_cases ht : t.id = tid
    · rw [if_pos ht] at h
      cases h
    · rw [if_neg ht] at h ⊢
      simp only at h ⊢
      rw [ih h]

theorem resolveLoop_found (tasks : List TaskRec) (tid : Nat) :
    ∀ i r, tasks[i]? = some r → r.id = tid →
      (∀ j s, j < i → tasks[j]? = some s → s.id ≠ tid) →
      resolveLoop tasks tid = (tasks.set i { r with resolved := true }, true) := by
  induction tasks with
  | nil => intro i r h _ _; simp at h
  | cons t ts ih =>
    intro i r h hid hfirst
    cases i with
    | zero =>
      simp only [List.getElem?_cons_zero, Option.some.injEq] at h
      subst h
      rw [resolveLoop, if_pos hid]
      rfl
    | succ n =>
      have ht : t.id ≠ tid := hfirst 0 t (Nat.succ_pos n) (by simp)
      simp only [List.getElem?_cons_succ] at h
      rw [resolveLoop, if_neg ht]
      have := ih n r h hid fun j s hj hs =>
        hfirst (j + 1) s (Nat.succ_lt_succ hj) (by simpa using hs)
      rw [this]
      rfl

theorem countHighAudio_cons (t : TaskRec) (ts : List TaskRec) :
    countHighAudio (t :: ts) =
      (if !t.resolved && pyUpper t.priority == "HIGH" && t.audio_file.isSome
       then 1 else 0) + countHighAudio ts := by
  unfold countHighAudio
  rw [List.filter_cons]
  split
  · simp [Nat.add_comm]
  · simp

theorem countHighAudio_append (a b : List TaskRec) :
    countHighAudio (a ++ b) = countHighAudio a + countHighAudio b := by
  unfold countHighAudio
  rw [List.filter_append, List.length_append]

theorem countHighAudio_eq_zero (l : List TaskRec)
    (h : ∀ c ∈ l, c.audio_file = none) : countHighAudio l = 0 := by
  induction l with
  | nil => rfl
  | cons t ts ih =>
    rw [countHighAudio_cons, if_neg (by simp [h t (by simp)]),
      ih fun c hc => h c (by simp [hc])]

theorem countHighAudio_allocate_le (gen : Nat → String → Option String)
    (cs : List TaskRec) (hc : ∀ c ∈ cs, c.audio_file = none) :
    ∀ slots, countHighAudio (allocateAudio gen slots cs) ≤ slots := by
  induction cs with
  | nil => intro slots; simp [allocateAudio, countHighAudio]
  | cons t ts ih =>
    intro slots
    have ht : t.audio_file = none := hc t (by simp)
    have hts : ∀ c ∈ ts, c.audio_file = none := fun c hcm => hc c (by simp [hcm])
    rw [allocateAudio]
    by_cases hp : pyUpper t.priority == "HIGH"
    · rw [if_pos hp]
      by_cases hs : slots = 0
      · rw [if_pos hs, hs, countHighAudio_eq_zero (t :: ts) hc]
      · rw [if_neg hs]
        by_cases hm : t.pilot_message != ""
        · rw [if_pos hm]
          cases hg : gen t.id t.pilot_message with
          | some fn =>
            rw [countHighAudio_cons]
            have hrec := ih hts (slots - 1)
            have hif :
                (if !({ t with audio_file := some fn } : TaskRec).resolved &&
                    pyUpper ({ t with audio_file := some fn } : TaskRec).priority == "HIGH" &&
                    ({ t with audio_file := some fn } : TaskRec).audio_file.isSome
                 then 1 else 0) ≤ 1 := by
              split <;> omega
            omega
          | none =>
            rw [countHighAudio_cons, if_neg (by simp [ht])]
            simpa using ih hts slots
        · rw [if_neg hm, countHighAudio_cons, if_neg (by simp [ht])]
          simpa using ih hts slots
    · rw [if_neg hp, countHighAudio_cons, if_neg (by simp [ht])]
      simpa using ih hts slots

theorem allocateAudio_mem (gen : Nat → String → Option String)
    (cs : List TaskRec) :
    ∀ slots, ∀ t ∈ allocateAudio gen slots cs, t ∈ cs ∨
      ∃ c, c ∈ cs ∧ pyUpper c.priority = "HIGH" ∧ c.pilot_message ≠ "" ∧
        ∃ fn, gen c.id c.pilot_message = some fn ∧
          t = { c with audio_file := some fn } := by
  induction cs with
  | nil => intro slots t hmem; simp [allocateAudio] at hmem
  | cons c cs ih =>
    intro slots t hmem
    rw [allocateAudio] at hmem
    by_cases hp : pyUpper c.priority == "HIGH"
    · rw [if_pos hp] at hmem
      by_cases hs : slots = 0
      · rw [if_pos hs] at hmem
        exact Or.inl hmem
      · rw [if_neg hs] at hmem
        by_cases hm : c.pilot_message != ""
        · rw [if_pos hm] at hmem
          cases hg : gen c.id c.pilot_message with
          | some fn =>
            rw [hg] at hmem
            rcases List.mem_cons.mp hmem with h | h
            · exact Or.inr ⟨c, by simp, by simpa using hp, by simpa using hm,
                fn, hg, h⟩
            · rcases ih (slots - 1) t h with h' | ⟨c', hc', rest⟩
              · exact Or.inl (by simp [h'])
              · exact Or.inr ⟨c', by simp [hc'], rest⟩
          | none =>
            rw [hg] at hmem
            rcases List.mem_cons.mp hmem with h | h
            · exact Or.inl (by simp [h])
            · rcases ih slots t h with h' | ⟨c', hc', rest⟩
              · exact Or.inl (by simp [h'])
              · exact Or.inr ⟨c', by simp [hc'], rest⟩
        · rw [if_neg hm] at hmem
          rcases List.mem_cons.mp hmem with h | h
          · exact Or.inl (by simp [h])
          · rcases ih slots t h with h' | ⟨c', hc', rest⟩
            · exact Or.inl (by simp [h'])
            · exact Or.inr ⟨c', by simp [hc'], rest⟩
    · rw [if_neg hp] at hmem
      rcases List.mem_cons.mp hmem with h | h
      · exact Or.inl (by simp [h])
      · rcases ih slots t h with h' | ⟨c', hc', rest⟩
        · exact Or.inl (by simp [h'])
        · exact Or.inr ⟨c', by simp [hc'], rest⟩

theorem allocateAudio_failed (gen : Nat → String → Option String)
    (slots : Nat) (t : TaskRec) (ts : List TaskRec)
    (hp : pyUpper t.priority = "HIGH") (hm : t.pilot_message ≠ "")
    (hg : gen t.id t.pilot_message = none) :
    allocateAudio gen slots (t :: ts) = t :: allocateAudio gen slots ts := by
  cases slots with
  | zero =>
    rw [allocateAudio, if_pos (by simp [hp]), if_pos rfl, allocateAudio_zero]
  | succ n =>
    rw [allocateAudio, if_pos (by simp [hp]), if_neg (Nat.succ_ne_zero n),
      if_pos (by simpa using hm), hg]

theorem mem_of_getElem?_eq {α : Type} (l : List α) (i : Nat) (a : α)
    (h : l[i]? = some a) : a ∈ l := by
  induction l generalizing i with
  | nil => simp at h
  | cons x xs ih =>
    cases i with
    | zero =>
      simp only [List.getElem?_cons_zero, Option.some.injEq] at h
      exact h ▸ List.mem_cons_self x xs
    | succ n =>
      simp only [List.getElem?_cons_succ] at h
      exact List.mem_cons_of_mem x (ih n h)

/-- Two candidates whose fingerprints both map to the dict entry at index
`i` share that fingerprint (the record at `i` carries both). -/
theorem touchers_eq (orig : List TaskRec) (i : Nat) (c1 c2 : TaskRec)
    (h1 : lastUnresolvedIdx orig c1.fingerprint = some i)
    (h2 : lastUnresolvedIdx orig c2.fingerprint = some i) :
    c1.fingerprint = c2.fingerprint := by
  obtain ⟨_, x, hx1, hm1⟩ := lastUnresolvedIdx_some_spec orig _ i h1
  obtain ⟨_, y, hy2, hm2⟩ := lastUnresolvedIdx_some_spec orig _ i h2
  rw [hx1, Option.some.injEq] at hy2
  subst hy2
  unfold matchesFpB at hm1 hm2
  simp only [Bool.and_eq_true, beq_iff_eq] at hm1 hm2
  rw [← hm1.2, ← hm2.2]

/-- A merge step that matches dict entry `i` rewrites index `i` of the
evolving existing-task list with `updateMatched`. -/
theorem mergeStep_fst_hit (orig : List TaskRec) (now : Int)
    (st : List TaskRec × List TaskRec) (c : TaskRec) (i : Nat) (r : TaskRec)
    (hfp : c.fingerprint ≠ "")
    (hL : lastUnresolvedIdx orig c.fingerprint = some i)
    (hr : st.1[i]? = some r) :
    (mergeStep orig now st c).1[i]? = some (updateMatched r c now) := by
  unfold mergeStep
  rw [if_pos hfp, hL]
  dsimp only
  have hgd : st.1.getD i c = r := by
    rw [List.getD_eq_getElem?_getD, hr]
    rfl
  rw [hgd]
  exact List.getElem?_set_self (List.getElem?_eq_some_iff.mp hr).1

/-- A merge step that does not match dict entry `i` leaves index `i` of the
existing-task list unchanged. -/
theorem mergeStep_fst_untouched (orig : List TaskRec) (now : Int)
    (st : List TaskRec × List TaskRec) (c : TaskRec) (i : Nat)
    (h : ¬(c.fingerprint ≠ "" ∧ lastUnresolvedIdx orig c.fingerprint = some i)) :
    (mergeStep orig now st c).1[i]? = st.1[i]? := by
  unfold mergeStep
  by_cases hfp : c.fingerprint ≠ ""
  · rw [if_pos hfp]
    cases hL : lastUnresolvedIdx orig c.fingerprint with
    | some j =>
      have hji : j ≠ i := fun hji => h ⟨hfp, by rw [hL, hji]⟩
      dsimp only
      exact List.getElem?_set_ne hji
    | none => rfl
  · rw [if_neg hfp]

/-- Once index `i` holds a record that candidate `c` can no longer change,
running the loop over candidates whose only possible hit on `i` is `c`
itself keeps that record there. -/
theorem mergeLoop_fst_preserve (orig : List TaskRec) (now : Int)
    (cs : List TaskRec) (st : List TaskRec × List TaskRec) (i : Nat)
    (r c : TaskRec) (hst : st.1[i]? = some r)
    (hfix : updateMatched r c now = r)
    (hall : ∀ c' ∈ cs,
      (c'.fingerprint ≠ "" ∧ lastUnresolvedIdx orig c'.fingerprint = some i) →
      c' = c) :
    (mergeLoop orig now cs st).1[i]? = some r := by
  induction cs generalizing st with
  | nil => exact hst
  | cons d ds ih =>
    rw [mergeLoop]
    by_cases hd : d.fingerprint ≠ "" ∧ lastUnresolvedIdx orig d.fingerprint = some i
    · have hdc : d = c := hall d (by simp) hd
      subst hdc
      have hstep : (mergeStep orig now st d).1[i]? = some r := by
        rw [mergeStep_fst_hit orig now st d i r hd.1 hd.2 hst, hfix]
      exact ih _ hstep fun c' hc' ht => hall c' (by simp [hc']) ht
    · have hstep : (mergeStep orig now st d).1[i]? = some r := by
        rw [mergeStep_fst_untouched orig now st d i hd]
        exact hst
      exact ih _ hstep fun c' hc' ht => hall c' (by simp [hc']) ht

/-- Invariant along a prefix of the batch: index `i` holds either the
original record or an `updateMatched`-fixed point of candidate `c`, when
`c` is the only candidate that can hit `i`. -/
theorem mergeLoop_fst_inv (orig : List TaskRec) (now : Int)
    (cs : List TaskRec) (st : List TaskRec × List TaskRec) (i : Nat)
    (x0 c : TaskRec)
    (hst : st.1[i]? = some x0 ∨
      ∃ r, st.1[i]? = some r ∧ updateMatched r c now = r)
    (hall : ∀ c' ∈ cs,
      (c'.fingerprint ≠ "" ∧ lastUnresolvedIdx orig c'.fingerprint = some i) →
      c' = c) :
    (mergeLoop orig now cs st).1[i]? = some x0 ∨
      ∃ r, (mergeLoop orig now cs st).1[i]? = some r ∧
        updateMatched r c now = r := by
  induction cs generalizing st with
  | nil => exact hst
  | cons d ds ih =>
    rw [mergeLoop]
    by_cases hd : d.fingerprint ≠ "" ∧ lastUnresolvedIdx orig d.fingerprint = some i
    · have hdc : d = c := hall d (by simp) hd
      subst hdc
      have hstep : ∃ r, (mergeStep orig now st d).1[i]? = some r ∧
          updateMatched r d now = r := by
        rcases hst with h | ⟨r, hr, hfixr⟩
        · exact ⟨updateMatched x0 d now,
            mergeStep_fst_hit orig now st d i x0 hd.1 hd.2 h,
            updateMatched_idem x0 d now⟩
        · refine ⟨r, ?_, hfixr⟩
          rw [mergeStep_fst_hit orig now st d i r hd.1 hd.2 hr, hfixr]
      exact ih _ (Or.inr hstep) fun c' hc' ht => hall c' (by simp [hc']) ht
    · have hstep := mergeStep_fst_untouched orig now st d i hd
      rcases hst with h | ⟨r, hr, hfixr⟩
      · exact ih _ (Or.inl (by rw [hstep]; exact h))
          fun c' hc' ht => hall c' (by simp [hc']) ht
      · exact ih _ (Or.inr ⟨r, by rw [hstep]; exact hr, hfixr⟩)
          fun c' hc' ht => hall c' (by simp [hc']) ht

/-- If every candidate's merge step leaves the state `(orig, [])` alone, the
whole merge is the identity on `orig`. -/
theorem mergeTasks_eq_of_fix (orig : List TaskRec) (B : List TaskRec) (now : Int)
    (hfix : ∀ c ∈ B, mergeStep orig now (orig, []) c = (orig, [])) :
    mergeTasks orig B now = orig := by
  unfold mergeTasks
  rw [mergeLoop_fixpoint orig now B (orig, []) hfix]
  simp

/-- Key step for merge idempotence: after one merge of a batch of
well-formed candidates (unresolved, nonempty pairwise-distinct
fingerprints, `created_at = now`), every candidate's fingerprint looks up a
record of the merged store that `updateMatched` maps to itself. -/
theorem mergeTasks_fix_key (S B : List TaskRec) (now : Int)
    (hres : ∀ c ∈ B, c.resolved = false)
    (hfp : ∀ c ∈ B, c.fingerprint ≠ "")
    (hca : ∀ c ∈ B, c.created_at = some (TStamp.ok now))
    (hdist : ∀ c1 ∈ B, ∀ c2 ∈ B, c1.fingerprint = c2.fingerprint → c1 = c2)
    (c : TaskRec) (hc : c ∈ B) :
    ∃ j r, lastUnresolvedIdx (mergeTasks S B now) c.fingerprint = some j ∧
      (mergeTasks S B now)[j]? = some r ∧ updateMatched r c now = r := by
  have hM : mergeTasks S B now =
      (mergeLoop S now B (S, [])).1 ++ (mergeLoop S now B (S, [])).2 := rfl
  have hEproj : ((mergeLoop S now B (S, [])).1).map proj = S.map proj :=
    mergeLoop_proj S now B (S, [])
  have hNval : (mergeLoop S now B (S, [])).2 =
      (B.filter (notMatchedB S)).map setNewTask := by
    simpa using mergeLoop_news S now B (S, [])
  have hlenE : ((mergeLoop S now B (S, [])).1).length = S.length := by
    have := congrArg List.length hEproj
    simpa using this
  rw [hM]
  cases hm : lastUnresolvedIdx S c.fingerprint with
  | some i =>
    have hNnone :
        lastUnresolvedIdx ((mergeLoop S now B (S, [])).2) c.fingerprint = none := by
      rw [lastUnresolvedIdx_none_iff]
      intro x hxN
      rw [hNval] at hxN
      obtain ⟨c2, hc2f, rfl⟩ := List.mem_map.mp hxN
      rw [List.mem_filter] at hc2f
      by_contra hms
      rw [Bool.not_eq_false] at hms
      have hfp2 : c2.fingerprint = c.fingerprint := by
        unfold matchesFpB setNewTask at hms
        simp only [Bool.and_eq_true, beq_iff_eq] at hms
        exact hms.2
      have hceq : c2 = c := hdist c2 hc2f.1 c hc hfp2
      have hnm := hc2f.2
      rw [hceq] at hnm
      unfold notMatchedB at hnm
      rw [hm] at hnm
      simp only [Option.isSome_some, Bool.not_true, Bool.or_false,
        beq_iff_eq] at hnm
      exact hfp c hc hnm
    have hElookup :
        lastUnresolvedIdx ((mergeLoop S now B (S, [])).1) c.fingerprint = some i := by
      rw [lastUnresolvedIdx_congr _ S hEproj]
      exact hm
    have hlookup : lastUnresolvedIdx
        ((mergeLoop S now B (S, [])).1 ++ (mergeLoop S now B (S, [])).2)
        c.fingerprint = some i := by
      rw [lastUnresolvedIdx_append, hNnone]
      exact hElookup
    obtain ⟨hiLt, x0, hx0, hmx0⟩ := lastUnresolvedIdx_some_spec S _ i hm
    obtain ⟨B1, B2, hBsplit⟩ := List.append_of_mem hc
    have halltouch : ∀ c' ∈ B,
        (c'.fingerprint ≠ "" ∧ lastUnresolvedIdx S c'.fingerprint = some i) →
        c' = c := by
      intro c' hc' ht
      exact hdist c' hc' c hc (touchers_eq S i c' c ht.2 hm)
    have hinv1 := mergeLoop_fst_inv S now B1 (S, []) i x0 c (Or.inl hx0)
      (fun c' hc' ht => halltouch c' (by rw [hBsplit]; simp [hc']) ht)
    have hcB : c ∈ B1 ++ c :: B2 := by simp
    have hstep : ∃ r',
        (mergeStep S now (mergeLoop S now B1 (S, [])) c).1[i]? = some r' ∧
        updateMatched r' c now = r' := by
      rcases hinv1 with h | ⟨r, hr, hfixr⟩
      · exact ⟨updateMatched x0 c now,
          mergeStep_fst_hit S now _ c i x0 (hfp c hc) hm h,
          updateMatched_idem x0 c now⟩
      · refine ⟨r, ?_, hfixr⟩
        rw [mergeStep_fst_hit S now _ c i r (hfp c hc) hm hr, hfixr]
    obtain ⟨r', hr', hfixr'⟩ := hstep
    have hend : ((mergeLoop S now B (S, [])).1)[i]? = some r' := by
      rw [hBsplit, mergeLoop_append, mergeLoop]
      exact mergeLoop_fst_preserve S now B2 _ i r' c hr' hfixr'
        (fun c' hc' ht => halltouch c' (by rw [hBsplit]; simp [hc']) ht)
    refine ⟨i, r', hlookup, ?_, hfixr'⟩
    rw [List.getElem?_append, if_pos (by rw [hlenE]; exact hiLt)]
    exact hend
  | none =>
    have hcN : setNewTask c ∈ (mergeLoop S now B (S, [])).2 := by
      rw [hNval]
      refine List.mem_map_of_mem _ (List.mem_filter.mpr ⟨hc, ?_⟩)
      unfold notMatchedB
      rw [hm]
      simp
    have hmatchc : matchesFpB (setNewTask c) c.fingerprint = true := by
      unfold matchesFpB setNewTask
      simp [hres c hc, hfp c hc]
    have hNsome : ¬ lastUnresolvedIdx ((mergeLoop S now B (S, [])).2)
        c.fingerprint = none := by
      intro h
      have := (lastUnresolvedIdx_none_iff _ _).mp h (setNewTask c) hcN
      rw [hmatchc] at this
      cases this
    obtain ⟨k, hk⟩ : ∃ k, lastUnresolvedIdx ((mergeLoop S now B (S, [])).2)
        c.fingerprint = some k := by
      cases h : lastUnresolvedIdx ((mergeLoop S now B (S, [])).2) c.fingerprint with
      | some k => exact ⟨k, rfl⟩
      | none => exact absurd h hNsome
    obtain ⟨hkLt, x, hx, hmx⟩ := lastUnresolvedIdx_some_spec _ _ k hk
    have hxval : x = setNewTask c := by
      have hxmem := mem_of_getElem?_eq _ k x hx
      rw [hNval] at hxmem
      obtain ⟨c2, hc2f, rfl⟩ := List.mem_map.mp hxmem
      rw [List.mem_filter] at hc2f
      have hfp2 : c2.fingerprint = c.fingerprint := by
        unfold matchesFpB setNewTask at hmx
        simp only [Bool.and_eq_true, beq_iff_eq] at hmx
        exact hmx.2
      rw [hdist c2 hc2f.1 c hc hfp2]
    have hlookup : lastUnresolvedIdx
        ((mergeLoop S now B (S, [])).1 ++ (mergeLoop S now B (S, [])).2)
        c.fingerprint = some (((mergeLoop S now B (S, [])).1).length + k) := by
      rw [lastUnresolvedIdx_append, hk]
    have hval : ((mergeLoop S now B (S, [])).1 ++
        (mergeLoop S now B (S, [])).2)[((mergeLoop S now B (S, [])).1).length + k]?
        = some (setNewTask c) := by
      rw [List.getElem?_append_right (Nat.le_add_right _ _),
        Nat.add_sub_cancel_left, hx, hxval]
    have hfixc : updateMatched (setNewTask c) c now = setNewTask c := by
      apply TaskRec.extAll
      · rw [updateMatched_aircraft_icao24]
      · rw [updateMatched_aircraft_callsign]
      · rw [updateMatched_category]
      · rw [updateMatched_priority]
      · rw [updateMatched_summary]
      · rw [updateMatched_description]
        simp [setNewTask]
      · rw [updateMatched_pilot_message]
      · rw [updateMatched_fingerprint]
      · rw [updateMatched_id]
      · rw [updateMatched_created_at]
      · rw [updateMatched_last_seen]
        show some (TStamp.ok now) = c.created_at
        rw [hca c hc]
      · rw [updateMatched_resolved]
      · rw [updateMatched_audio_file]
        have : (setNewTask c).audio_file = c.audio_file := rfl
        rw [this]
        cases h : truthyOpt c.audio_file <;> simp [h]
    exact ⟨_, setNewTask c, hlookup, hval, hfixc⟩

/-! ### Claim theorems -/

/-- Merging a single candidate whose fingerprint has an unresolved match at
index `i` updates exactly that index. -/
theorem mergeTasks_single_matched (store : List TaskRec) (c : TaskRec)
    (now : Int) (i : Nat) (hfp : c.fingerprint ≠ "")
    (hidx : lastUnresolvedIdx store c.fingerprint = some i)
    (r : TaskRec) (hr : store[i]? = some r) :
    mergeTasks store [c] now = store.set i (updateMatched r c now) := by
  unfold mergeTasks
  show (mergeLoop store now [c] (store, [])).1 ++
    (mergeLoop store now [c] (store, [])).2 = _
  rw [mergeLoop, mergeLoop]
  unfold mergeStep
  rw [if_pos hfp, hidx]
  simp only [List.getD_eq_getElem?_getD, hr, Option.getD_some]
  rw [List.append_nil]

/-- Claim C1: when a candidate's fingerprint matches an unresolved store
record, the merge updates that record in place: `last_seen` becomes `now`,
the description is replaced exactly when the candidate's is strictly
longer, the candidate's audio reference is adopted exactly when the record
has none (and the candidate has one), and `created_at`, `resolved`, the
identity fields and every other record are untouched. -/
theorem claim_C1_merge_update (store : List TaskRec) (c : TaskRec)
    (now : Int) (i : Nat) (hfp : c.fingerprint ≠ "")
    (hidx : lastUnresolvedIdx store c.fingerprint = some i) :
    ∃ r, store[i]? = some r ∧ r.resolved = false ∧
      r.fingerprint = c.fingerprint ∧
      mergeTasks store [c] now = store.set i (updateMatched r c now) ∧
      (∀ j, j ≠ i → (mergeTasks store [c] now)[j]? = store[j]?) ∧
      (mergeTasks store [c] now).length = store.length ∧
      (updateMatched r c now).last_seen = some (TStamp.ok now) ∧
      (updateMatched r c now).description =
        (if c.description.length > r.description.length then c.description
         else r.description) ∧
      (updateMatched r c now).audio_file =
        (if !(truthyOpt r.audio_file) && truthyOpt c.audio_file then
          c.audio_file else r.audio_file) ∧
      (updateMatched r c now).created_at = r.created_at ∧
      (updateMatched r c now).resolved = r.resolved ∧
      (updateMatched r c now).aircraft_icao24 = r.aircraft_icao24 ∧
      (updateMatched r c now).category = r.category ∧
      (updateMatched r c now).priority = r.priority ∧
      (updateMatched r c now).fingerprint = r.fingerprint ∧
      (updateMatched r c now).id = r.id := by
  obtain ⟨hi, x, hx, hm⟩ := lastUnresolvedIdx_some_spec store c.fingerprint i hidx
  unfold matchesFpB at hm
  simp only [Bool.and_eq_true, Bool.not_eq_true', bne_iff_ne, beq_iff_eq] at hm
  have hmerge := mergeTasks_single_matched store c now i hfp hidx x hx
  refine ⟨x, hx, hm.1.1, hm.2, hmerge, ?_, ?_,
    updateMatched_last_seen x c now, updateMatched_description x c now,
    updateMatched_audio_file x c now, updateMatched_created_at x c now,
    updateMatched_resolved x c now, updateMatched_aircraft_icao24 x c now,
    updateMatched_category x c now, updateMatched_priority x c now,
    updateMatched_fingerprint x c now, updateMatched_id x c now⟩
  · intro j hj
    rw [hmerge]
    exact List.getElem?_set_ne (Ne.symm hj)
  · rw [hmerge, List.length_set]

/-- Witness for C1: the spec's scenario — one unresolved HIGH task created
at `T0 = 0`, a candidate with the same triple and a longer description at
`T0 + 5 min = 300 s`. -/
theorem claim_C1_witness :
    ∃ r, [sampleBase][0]? = some r ∧ r.resolved = false ∧
      r.fingerprint = candLonger.fingerprint ∧
      mergeTasks [sampleBase] [candLonger] 300 =
        [sampleBase].set 0 (updateMatched r candLonger 300) ∧
      (∀ j, j ≠ 0 →
        (mergeTasks [sampleBase] [candLonger] 300)[j]? = [sampleBase][j]?) ∧
      (mergeTasks [sampleBase] [candLonger] 300).length = [sampleBase].length ∧
      (updateMatched r candLonger 300).last_seen = some (TStamp.ok 300) ∧
      (updateMatched r candLonger 300).description =
        (if candLonger.description.length > r.description.length then
          candLonger.description else r.description) ∧
      (updateMatched r candLonger 300).audio_file =
        (if !(truthyOpt r.audio_file) && truthyOpt candLonger.audio_file then
          candLonger.audio_file else r.audio_file) ∧
      (updateMatched r candLonger 300).created_at = r.created_at ∧
      (updateMatched r candLonger 300).resolved = r.resolved ∧
      (updateMatched r candLonger 300).aircraft_icao24 = r.aircraft_icao24 ∧
      (updateMatched r candLonger 300).category = r.category ∧
      (updateMatched r candLonger 300).priority = r.priority ∧
      (updateMatched r candLonger 300).fingerprint = r.fingerprint ∧
      (updateMatched r candLonger 300).id = r.id :=
  claim_C1_merge_update [sampleBase] candLonger 300 0 (by decide) (by decide)

/-- Merging a single candidate with no unresolved fingerprint match appends
it (with `last_seen := created_at`) after the untouched store. -/
theorem mergeTasks_single_unmatched (store : List TaskRec) (c : TaskRec)
    (now : Int) (hnone : c.fingerprint = "" ∨
      lastUnresolvedIdx store c.fingerprint = none) :
    mergeTasks store [c] now = store ++ [setNewTask c] := by
  unfold mergeTasks
  show (mergeLoop store now [c] (store, [])).1 ++
    (mergeLoop store now [c] (store, [])).2 = _
  rw [mergeLoop, mergeLoop]
  unfold mergeStep
  rcases hnone with h | h
  · rw [if_neg (by simp [h])]
    simp
  · by_cases hfp : c.fingerprint = ""
    · rw [if_neg (by simp [hfp])]
      simp
    · rw [if_pos hfp, h]
      simp

/-- Counterexample to C3 as stated: the code's cycle allocates audio to the
candidate batch BEFORE the merge, and the merge copies the candidate's
fields into the appended record, so the brand-new unresolved record created
for a fingerprint that matches only a resolved record CAN carry an audio
reference — here `task_17.mp3` — where the claim requires none. -/
theorem claim_C3_cex :
    lastUnresolvedIdx [resolvedRec] candFresh.fingerprint = none ∧
    resolvedRec.resolved = true ∧
    resolvedRec.fingerprint = candFresh.fingerprint ∧
    (mergeTasks [resolvedRec]
        (allocationStep genOk [resolvedRec] [candFresh]) 120).map
        TaskRec.audio_file = [none, some "task_17.mp3"] := by
  refine ⟨rfl, rfl, rfl, ?_⟩
  decide

/-- Claim C3 (amended): a candidate whose fingerprint matches only resolved
records is appended as a brand-new record with
`created_at = last_seen = now`, `resolved = false` and the candidate's own
audio reference (none whenever the candidate carries none — but the
pre-merge audio allocator may already have attached one); the resolved
record with the same fingerprint is not merged into or modified and
coexists with the new record. -/
theorem claim_C3_new_record (store : List TaskRec) (c : TaskRec) (now : Int)
    (hfp : c.fingerprint ≠ "")
    (hnone : lastUnresolvedIdx store c.fingerprint = none)
    (hres : c.resolved = false)
    (hca : c.created_at = some (TStamp.ok now))
    (j : Nat) (r : TaskRec) (hj : store[j]? = some r)
    (hrres : r.resolved = true) (hrfp : r.fingerprint = c.fingerprint) :
    mergeTasks store [c] now = store ++ [setNewTask c] ∧
    (setNewTask c).created_at = some (TStamp.ok now) ∧
    (setNewTask c).last_seen = some (TStamp.ok now) ∧
    (setNewTask c).resolved = false ∧
    (setNewTask c).audio_file = c.audio_file ∧
    (mergeTasks store [c] now)[j]? = some r ∧
    (mergeTasks store [c] now)[store.length]? = some (setNewTask c) := by
  have hmerge := mergeTasks_single_unmatched store c now (Or.inr hnone)
  have hjlt : j < store.length := by
    rcases List.getElem?_eq_some_iff.mp hj with ⟨h, _⟩
    exact h
  refine ⟨hmerge, hca, hca, hres, rfl, ?_, ?_⟩
  · rw [hmerge, List.getElem?_append, if_pos hjlt]
    exact hj
  · rw [hmerge, List.getElem?_concat_length]

/-- Witness for C3: the spec's recurrence scenario — a task resolved at
`T0 = 0` whose fingerprint reappears as a fresh (audio-free) candidate at
`T0 + 2 min = 120 s`. -/
theorem claim_C3_witness :
    mergeTasks [resolvedRec] [candFresh] 120 =
        [resolvedRec] ++ [setNewTask candFresh] ∧
    (setNewTask candFresh).created_at = some (TStamp.ok 120) ∧
    (setNewTask candFresh).last_seen = some (TStamp.ok 120) ∧
    (setNewTask candFresh).resolved = false ∧
    (setNewTask candFresh).audio_file = candFresh.audio_file ∧
    (mergeTasks [resolvedRec] [candFresh] 120)[0]? = some resolvedRec ∧
    (mergeTasks [resolvedRec] [candFresh] 120)[[resolvedRec].length]? =
      some (setNewTask candFresh) :=
  claim_C3_new_record [resolvedRec] candFresh 120 (by decide) rfl rfl rfl
    0 resolvedRec rfl rfl rfl

theorem unresolvedFps_append (a b : List TaskRec) :
    unresolvedFps (a ++ b) = unresolvedFps a ++ unresolvedFps b := by
  unfold unresolvedFps
  rw [List.filter_append, List.map_append]

theorem unresolvedFps_congr (l1 l2 : List TaskRec)
    (h : l1.map proj = l2.map proj) : unresolvedFps l1 = unresolvedFps l2 := by
  induction l1 generalizing l2 with
  | nil =>
    cases l2 with
    | nil => rfl
    | cons u us => simp at h
  | cons t ts ih =>
    cases l2 with
    | nil => simp at h
    | cons u us =>
      simp only [List.map_cons, List.cons.injEq] at h
      have hp := h.1
      unfold proj at hp
      rw [Prod.mk.injEq] at hp
      unfold unresolvedFps at ih ⊢
      rw [List.filter_cons, List.filter_cons, hp.1, hp.2]
      split
      · simp only [List.map_cons]
        rw [hp.2, ih us h.2]
      · exact ih us h.2

theorem mem_unresolvedFps (l : List TaskRec) (fp : String) :
    fp ∈ unresolvedFps l ↔ ∃ x ∈ l, matchesFpB x fp = true := by
  unfold unresolvedFps
  simp only [List.mem_map, List.mem_filter]
  constructor
  · rintro ⟨x, ⟨hxl, hxf⟩, rfl⟩
    refine ⟨x, hxl, ?_⟩
    unfold matchesFpB
    simp only [Bool.and_eq_true] at hxf ⊢
    exact ⟨hxf, by simp⟩
  · rintro ⟨x, hxl, hxm⟩
    unfold matchesFpB at hxm
    simp only [Bool.and_eq_true, beq_iff_eq] at hxm
    exact ⟨x, ⟨hxl, by simp only [Bool.and_eq_true]; exact hxm.1⟩, hxm.2⟩

theorem setNewTask_proj (c : TaskRec) : proj (setNewTask c) = proj c := rfl

/-- Counterexample to C2 as stated: the dedup lookup is computed once,
before the merge loop, so when one batch contains two candidates sharing a
fingerprint that has no unresolved match in the store, both are appended —
the second is not routed into the record the first one just created.  Two
unresolved records with one fingerprint result, from a store (the empty
one) whose unresolved fingerprints were unique. -/
theorem claim_C2_cex :
    (unresolvedFps ([] : List TaskRec)).Nodup ∧
    ¬ (unresolvedFps (mergeTasks [] [candDup, candDup] 0)).Nodup := by
  constructor
  · decide
  · decide

/-- Claim C2 (amended): the merge preserves uniqueness of unresolved
fingerprints provided the incoming batch never contains two candidates
sharing a fingerprint that lacks an unresolved match in the store (a
duplicate of a fingerprint that does match is harmless: both candidates
update the same record in place). -/
theorem claim_C2_unique (store cands : List TaskRec) (now : Int)
    (hstore : (unresolvedFps store).Nodup)
    (hbatch : List.Pairwise (fun c1 c2 => c1.fingerprint = c2.fingerprint →
      c1.fingerprint ≠ "" →
      (lastUnresolvedIdx store c1.fingerprint).isSome = true) cands) :
    (unresolvedFps (mergeTasks store cands now)).Nodup := by
  unfold mergeTasks
  rw [unresolvedFps_append]
  have hE : (unresolvedFps (mergeLoop store now cands (store, [])).1) =
      unresolvedFps store :=
    unresolvedFps_congr _ _ (by rw [mergeLoop_proj])
  have hN : (mergeLoop store now cands (store, [])).2 =
      (cands.filter (notMatchedB store)).map setNewTask := by
    have := mergeLoop_news store now cands (store, [])
    simpa using this
  have hNfps : unresolvedFps ((mergeLoop store now cands (store, [])).2) =
      unresolvedFps (cands.filter (notMatchedB store)) := by
    rw [hN]
    apply unresolvedFps_congr
    rw [List.map_map]
    rfl
  apply List.Nodup.append
  · rw [hE]; exact hstore
  · rw [hNfps]
    unfold unresolvedFps
    rw [List.filter_filter]
    apply List.pairwise_map.mpr
    have hsub := hbatch.filter
      (fun t => (!t.resolved && t.fingerprint != "") && notMatchedB store t)
    refine hsub.imp_of_mem ?_
    intro c1 c2 h1 h2 hR heq
    rw [List.mem_filter] at h1
    have h1f := h1.2
    simp only [Bool.and_eq_true, bne_iff_ne] at h1f
    have hfp1 : c1.fingerprint ≠ "" := h1f.1.2
    have hnm : notMatchedB store c1 = true := h1f.2
    have hR' := hR heq hfp1
    unfold notMatchedB at hnm
    cases hL : lastUnresolvedIdx store c1.fingerprint with
    | some j =>
      rw [hL] at hnm
      simp at hnm
      exact hfp1 hnm
    | none =>
      rw [hL] at hR'
      simp at hR'
  · intro fp hfpE hfpN
    rw [hE] at hfpE
    rw [hNfps] at hfpN
    obtain ⟨x, hxs, hxm⟩ := (mem_unresolvedFps store fp).mp hfpE
    obtain ⟨y, hys, hym⟩ := (mem_unresolvedFps _ fp).mp hfpN
    rw [List.mem_filter] at hys
    have hyfp : y.fingerprint = fp ∧ y.fingerprint ≠ "" := by
      unfold matchesFpB at hym
      simp only [Bool.and_eq_true, bne_iff_ne, beq_iff_eq] at hym
      exact ⟨hym.2, hym.1.2⟩
    have hnm := hys.2
    unfold notMatchedB at hnm
    cases hL : lastUnresolvedIdx store y.fingerprint with
    | some j =>
      rw [hL] at hnm
      simp at hnm
      exact hyfp.2 hnm
    | none =>
      rw [hyfp.1] at hL
      have := (lastUnresolvedIdx_none_iff store fp).mp hL x hxs
      rw [hxm] at this
      cases this

/-- Counterexample to C8 as stated: merge is NOT idempotent for every store
and batch.  A batch holding two candidates with one fingerprint (longer
description first) appends two records on the first pass; on the second
pass both candidates hit the later record and copy the longer description
into it — a non-timestamp field drifts. -/
theorem claim_C8_cex :
    mergeTasks (mergeTasks [] [candA, candB] 0) [candA, candB] 0 ≠
      mergeTasks [] [candA, candB] 0 := by
  decide

/-- Claim C8 (amended): merge is idempotent, and the empty batch is the
identity on the store, provided the batch is well-formed the way the
analysis step produces it — every candidate unresolved with a nonempty
fingerprint and `created_at` equal to the merge time — and no two distinct
candidates of the batch share a fingerprint. -/
theorem claim_C8_idem (S B : List TaskRec) (now : Int)
    (hres : ∀ c ∈ B, c.resolved = false)
    (hfp : ∀ c ∈ B, c.fingerprint ≠ "")
    (hca : ∀ c ∈ B, c.created_at = some (TStamp.ok now))
    (hdist : ∀ c1 ∈ B, ∀ c2 ∈ B, c1.fingerprint = c2.fingerprint → c1 = c2) :
    mergeTasks (mergeTasks S B now) B now = mergeTasks S B now ∧
    mergeTasks S [] now = S := by
  constructor
  · apply mergeTasks_eq_of_fix
    intro c hc
    obtain ⟨j, r, hj, hr, hfixr⟩ :=
      mergeTasks_fix_key S B now hres hfp hca hdist c hc
    unfold mergeStep
    rw [if_pos (hfp c hc), hj]
    dsimp only
    have hgd : (mergeTasks S B now).getD j c = r := by
      rw [List.getD_eq_getElem?_getD, hr]
      rfl
    rw [hgd, hfixr, set_getElem?_self _ j r hr]
  · unfold mergeTasks
    rw [mergeLoop]
    simp

/-- Witness for C8: one recurrence candidate re-merged into a one-record
store at its own timestamp. -/
theorem claim_C8_witness :
    mergeTasks (mergeTasks [sampleBase] [candLonger] 300) [candLonger] 300 =
        mergeTasks [sampleBase] [candLonger] 300 ∧
    mergeTasks [sampleBase] [] 300 = [sampleBase] :=
  claim_C8_idem [sampleBase] [candLonger] 300 (by decide) (by decide)
    (by decide)
    (fun c1 h1 c2 h2 _ => by
      simp only [List.mem_singleton] at h1 h2
      rw [h1, h2])

/-- Witness for C2: a batch of two distinct-fingerprint candidates merged
into a one-record store keeps unresolved fingerprints unique. -/
theorem claim_C2_witness :
    (unresolvedFps [sampleBase]).Nodup ∧
    (unresolvedFps (mergeTasks [sampleBase] [candLonger, otherTask] 300)).Nodup :=
  ⟨by decide,
    claim_C2_unique [sampleBase] [candLonger, otherTask] 300 (by decide)
      (by
        constructor
        · intro c2 hc2 heq _
          simp only [List.mem_singleton] at hc2
          subst hc2
          exact absurd heq (by decide)
        · constructor
          · intro c hc
            simp at hc
          · constructor)⟩

/-- Claim C5: pruning drops an unresolved record iff `now - last_seen`
(falling back to `created_at`) strictly exceeds the unresolved expiry, drops
a resolved record iff `now - created_at` strictly exceeds the resolved
retention, and every surviving record is kept unchanged, in order. -/
theorem claim_C5_prune (tasks : List TaskRec) (now em rh : Int) :
    (prune_outdated_tasks tasks now em rh).Sublist tasks ∧
    (∀ t : TaskRec, t ∈ prune_outdated_tasks tasks now em rh ↔
      t ∈ tasks ∧ keepTask (now - 60 * em) (now - 3600 * rh) t = true) ∧
    (∀ t : TaskRec, t.resolved = false → ∀ s : Int,
      effectiveSeen t = some (TStamp.ok s) →
      (keepTask (now - 60 * em) (now - 3600 * rh) t = false ↔ now - s > 60 * em)) ∧
    (∀ t : TaskRec, t.resolved = true → ∀ s : Int,
      t.created_at = some (TStamp.ok s) →
      (keepTask (now - 60 * em) (now - 3600 * rh) t = false ↔
        now - s > 3600 * rh)) := by
  refine ⟨List.filter_sublist _, fun t => List.mem_filter, ?_, ?_⟩
  · intro t hres s hs
    unfold keepTask
    rw [hres, hs]
    simp only [Bool.not_false, if_true]
    constructor
    · intro h
      simp at h
      omega
    · intro h
      simp
      omega
  · intro t hres s hs
    unfold keepTask
    rw [hres, hs]
    simp only [Bool.not_true, Bool.false_eq_true, if_false]
    constructor
    · intro h
      simp at h
      omega
    · intro h
      simp
      omega

/-- Witness for C5 at the spec's concrete scenario: `now = 0`,
10-minute expiry, a task last seen 660 s ago is dropped, one last seen
540 s ago is kept. -/
theorem claim_C5_prune_witness :
    staleTask.resolved = false ∧
    effectiveSeen staleTask = some (TStamp.ok (-660)) ∧
    (keepTask (0 - 60 * 10) (0 - 3600 * 1) staleTask = false ↔
      (0 : Int) - (-660) > 60 * 10) ∧
    keepTask (0 - 60 * 10) (0 - 3600 * 1) staleTask = false ∧
    keepTask (0 - 60 * 10) (0 - 3600 * 1) freshTask = true ∧
    (prune_outdated_tasks [staleTask, freshTask] 0 10 1).Sublist
      [staleTask, freshTask] :=
  ⟨rfl, rfl,
    (claim_C5_prune [staleTask, freshTask] 0 10 1).2.2.1 staleTask rfl (-660) rfl,
    by decide, by decide, (claim_C5_prune [staleTask, freshTask] 0 10 1).1⟩

/-- Claim C6: a record whose relevant timestamp does not parse is kept in
place by the pruner, and the pruning of the surrounding records is
unaffected.  (`prune_outdated_tasks` is a total Lean function, mirroring the
per-record `try/except` that turns a parse error into retention plus a log
line rather than an exception.) -/
theorem claim_C6_prune_badStamp (a b : List TaskRec) (m : TaskRec)
    (now em rh : Int) (h : hasBadStamp m = true) :
    prune_outdated_tasks (a ++ m :: b) now em rh =
      prune_outdated_tasks a now em rh ++
        m :: prune_outdated_tasks b now em rh := by
  unfold prune_outdated_tasks
  rw [List.filter_append, List.filter_cons, if_pos (keepTask_of_badStamp _ _ m h)]

/-- Witness for C6: a record with an unparseable `last_seen` sits between a
stale record (dropped) and a fresh one (kept) and survives in place. -/
theorem claim_C6_witness :
    hasBadStamp badStampTask = true ∧
    prune_outdated_tasks ([staleTask] ++ badStampTask :: [freshTask]) 0 10 1 =
      prune_outdated_tasks [staleTask] 0 10 1 ++
        badStampTask :: prune_outdated_tasks [freshTask] 0 10 1 :=
  ⟨by decide,
    claim_C6_prune_badStamp [staleTask] [freshTask] badStampTask 0 10 1 (by decide)⟩

/-- Counterexample to C7 as stated: the f-string concatenation
`{icao24}_{category}_{priority}` is not injective over arbitrary field
values — an underscore inside `aircraft_id` or `category` shifts the
separators.  Two findings differing in those fields share one fingerprint. -/
theorem claim_C7_cex :
    fingerprint "A_B" "C" "LOW" = fingerprint "A" "B_C" "LOW" ∧
    ¬("A_B" = "A" ∧ "C" = "B_C") := by
  constructor
  · rfl
  · decide

/-- Claim C7 (amended): the fingerprint is a pure function of the triple,
and it is collision-free provided `aircraft_id` and `category` contain no
underscore (the separator); the priority may contain anything. -/
theorem claim_C7_fingerprint (a1 c1 p1 a2 c2 p2 : String)
    (ha1 : noUnderscore a1 = true) (hc1 : noUnderscore c1 = true)
    (ha2 : noUnderscore a2 = true) (hc2 : noUnderscore c2 = true) :
    fingerprint a1 c1 p1 = fingerprint a2 c2 p2 ↔
      a1 = a2 ∧ c1 = c2 ∧ p1 = p2 := by
  constructor
  · intro h
    have hd : (fingerprint a1 c1 p1).data = (fingerprint a2 c2 p2).data := by
      rw [h]
    rw [fingerprint_data, fingerprint_data] at hd
    obtain ⟨e1, e2⟩ := append_sep_inj '_' a1.data _ _ _
      (noUnderscore_not_mem a1 ha1) (noUnderscore_not_mem a2 ha2) hd
    obtain ⟨e3, e4⟩ := append_sep_inj '_' c1.data _ _ _
      (noUnderscore_not_mem c1 hc1) (noUnderscore_not_mem c2 hc2) e2
    exact ⟨String.ext e1, String.ext e3, String.ext e4⟩
  · rintro ⟨rfl, rfl, rfl⟩
    rfl

/-- Witness for C7 on realistic field values (no underscores): fingerprints
agree exactly when the triples agree. -/
theorem claim_C7_witness :
    fingerprint "A1B2C3" "Low Altitude" "HIGH" =
        fingerprint "A1B2C3" "Low Altitude" "LOW" ↔
      ("A1B2C3" : String) = "A1B2C3" ∧
        ("Low Altitude" : String) = "Low Altitude" ∧
        ("HIGH" : String) = "LOW" :=
  claim_C7_fingerprint "A1B2C3" "Low Altitude" "HIGH" "A1B2C3" "Low Altitude" "LOW"
    (by decide) (by decide) (by decide) (by decide)

/-- Counterexample to C9 as stated: with a failing store write the cycle
sees no error at all — `save_tasks` catches the exception and only prints,
so the surfaced-error component is `none`, not an error. -/
theorem claim_C9_cex :
    (runMergePersist false [sampleBase] [candLonger] 300 10 1).2.2 = none := by
  rfl

/-- Claim C9 (amended): a failed store write is swallowed inside
`save_tasks` (logged, never surfaced to the cycle); `run_analysis` completes
and returns the same new-task list as on success, the in-memory merge result
of the cycle is not retained, and — when the write fails before touching the
file — the previous on-disk state is what the next cycle loads. -/
theorem claim_C9_save_failure (disk cands : List TaskRec) (now em rh : Int) :
    (runMergePersist false disk cands now em rh).2.2 = none ∧
    (runMergePersist false disk cands now em rh).1 = disk ∧
    (runMergePersist false disk cands now em rh).2.1 =
      (runMergePersist true disk cands now em rh).2.1 :=
  ⟨rfl, rfl, rfl⟩

/-- Claim C10: `resolve_task` flips `resolved` on the first record whose id
matches and touches nothing else; and because a task's id is
`abs(hash(fingerprint)) % 1000000`, two records built from the same identity
triple — e.g. a resolved task and its later unresolved recurrence — carry
the same id within one process (same `hash`). -/
theorem claim_C10_resolve (tasks : List TaskRec) (tid : Nat) :
    ((resolve_task tasks tid).2 = false → (resolve_task tasks tid).1 = tasks) ∧
    (∀ i r, tasks[i]? = some r → r.id = tid →
      (∀ j s, j < i → tasks[j]? = some s → s.id ≠ tid) →
      (resolve_task tasks tid).1 = tasks.set i { r with resolved := true } ∧
      (resolve_task tasks tid).2 = true) ∧
    (∀ hash : String → Int, ∀ now1 now2 : Int, ∀ c1 c2 : TaskRec,
      c1.aircraft_icao24 = c2.aircraft_icao24 → c1.category = c2.category →
      c1.priority = c2.priority →
      (assignIdentity hash now1 c1).id = (assignIdentity hash now2 c2).id) := by
  refine ⟨resolveLoop_not_found tasks tid, ?_, ?_⟩
  · intro i r h hid hfirst
    have := resolveLoop_found tasks tid i r h hid hfirst
    unfold resolve_task
    rw [this]
    exact ⟨rfl, rfl⟩
  · intro hash now1 now2 c1 c2 h1 h2 h3
    simp [assignIdentity, fingerprint, h1, h2, h3]

/-- Claim C4: with at most 3 unresolved HIGH tasks carrying audio in the
pre-allocation store, after the allocation step the unresolved HIGH tasks
with a non-null audio reference (store plus candidate batch) still number at
most 3; every record the allocator changes is a HIGH candidate lacking audio
with a non-empty pilot message, and a failed narration attempt leaves the
slot budget untouched for the next eligible task. -/
theorem claim_C4_audio_cap (gen : Nat → String → Option String)
    (existing cands : List TaskRec)
    (hE : countHighAudio existing ≤ 3)
    (hc : ∀ c ∈ cands, c.audio_file = none) :
    countHighAudio (existing ++ allocationStep gen existing cands) ≤ 3 ∧
    (∀ t ∈ allocationStep gen existing cands, t ∈ cands ∨
      ∃ c, c ∈ cands ∧ pyUpper c.priority = "HIGH" ∧ c.pilot_message ≠ "" ∧
        c.audio_file = none ∧
        ∃ fn, gen c.id c.pilot_message = some fn ∧
          t = { c with audio_file := some fn }) ∧
    (∀ slots : Nat, ∀ t : TaskRec, ∀ ts : List TaskRec,
      pyUpper t.priority = "HIGH" → t.pilot_message ≠ "" →
      gen t.id t.pilot_message = none →
      allocateAudio gen slots (t :: ts) = t :: allocateAudio gen slots ts) := by
  refine ⟨?_, ?_, fun slots t ts hp hm hg => allocateAudio_failed gen slots t ts hp hm hg⟩
  · rw [countHighAudio_append]
    have h1 := countHighAudio_allocate_le gen cands hc (audioSlots existing)
    have h2 : countHighAudio existing + audioSlots existing ≤ 3 := by
      unfold audioSlots
      omega
    unfold allocationStep
    omega
  · intro t ht
    rcases allocateAudio_mem gen cands (audioSlots existing) t ht with h | ⟨c, hcm, hp, hm, fn, hg, rfl⟩
    · exact Or.inl h
    · exact Or.inr ⟨c, hcm, hp, hm, hc c hcm, fn, hg, rfl⟩

/-- Witness for C4: empty store, one HIGH candidate with a pilot message and
a succeeding narration backend. -/
theorem claim_C4_witness :
    countHighAudio ([] ++ allocationStep genOk [] [sampleBase]) ≤ 3 :=
  (claim_C4_audio_cap genOk [] [sampleBase] (by decide) (by decide)).1

/-- Witness for C10: resolving id 18 in a two-record store flips only the
second record's `resolved` flag. -/
theorem claim_C10_witness :
    ([sampleBase, otherTask][1]? = some otherTask) ∧
    otherTask.id = 18 ∧
    (resolve_task [sampleBase, otherTask] 18).1 =
      [sampleBase, otherTask].set 1 { otherTask with resolved := true } ∧
    (resolve_task [sampleBase, otherTask] 18).2 = true :=
  ⟨rfl, rfl,
    (claim_C10_resolve [sampleBase, otherTask] 18).2.1 1 otherTask rfl rfl
      (fun j s hj hs => by
        have hj0 : j = 0 := by omega
        subst hj0
        simp only [List.getElem?_cons_zero, Option.some.injEq] at hs
        subst hs
        decide)⟩

end AnalysisService
